import Mathlib

/-!
Shallow embedding of `src/index.ts` of `ts-ast-static-resolver`.

The resolver walks a TypeScript AST together with the program's checker
(symbol lookup, alias resolution, symbol typing, type arguments of a type
reference).  We embed:

* the syntax tree as the inductive `TsNode`, carrying exactly the fields the
  resolver reads (node kinds not inspected by the dispatcher are collapsed
  into dedicated constructors or `otherNode`);
* checker answers as the structure `Program` (the source's
  `program.getTypeChecker().f x` becomes `p.f x`);
* JavaScript numbers as an abstract type `α` with the operations the source
  uses (`parseFloat`, unary minus, `Number.prototype.toString`, `BigInt`),
  collected in `JsOps` — IEEE semantics are never inspected by the resolver;
* the possibly unbounded mutual recursion (it can cycle through
  `symbol.valueDeclaration`, e.g. `const a = a;`) as fuel-indexed functions
  returning `Option (Except JsError _)`: `none` means the recursion did not
  finish within the given fuel (divergence is `∀ fuel, none`),
  `some (.error e)` means the JavaScript call terminated by throwing `e`
  (the one thrower the resolver reaches is the `RegExp` constructor, whose
  `SyntaxError` on a rejected pattern source propagates out of every
  caller), and `some (.ok r)` means it returned the result `r`.
-/

namespace TsResolver

/-- JavaScript runtime primitives over an abstract number type `α`:
`parseFloat` on a numeric-literal text, `Number.prototype.toString`,
numeric negation, `BigInt(string)` (arbitrary precision, hence `Int`;
total here because the scanner-produced bigint literal text is always
accepted by `BigInt`), and the pattern grammar of the `RegExp`
constructor: `new RegExp(s)` succeeds exactly when `isValidPattern s`,
and throws a `SyntaxError` otherwise. -/
structure JsOps (α : Type) where
  parseFloat : String → α
  numToString : α → String
  neg : α → α
  parseBigInt : String → Int
  isValidPattern : String → Bool

/-- The tokens `ts.PrefixUnaryOperator` ranges over. -/
inductive UnaryOperatorToken where
  | plusPlusToken
  | minusMinusToken
  | plusToken
  | minusToken
  | tildeToken
  | exclamationToken
deriving DecidableEq

/-- Syntax nodes, restricted to the kinds and fields `resolveToLiteral`
inspects.  Literal nodes carry their `text` field (already decoded by the
parser); a template span is the pair of its embedded expression and the
`text` of its trailing literal. -/
inductive TsNode where
  | numericLiteral (text : String)
  | bigIntLiteral (text : String)
  | stringLiteral (text : String)
  | noSubstitutionTemplateLiteral (text : String)
  | regularExpressionLiteral (text : String)
  | trueKeyword
  | falseKeyword
  | prefixUnaryExpression (operator : UnaryOperatorToken) (operand : TsNode)
  | arrayLiteralExpression (elements : List TsNode)
  | parenthesizedExpression (expression : TsNode)
  | computedPropertyName (expression : TsNode)
  | variableDeclaration (initializer : Option TsNode)
  | asExpression (expression : TsNode)
  | objectLiteralExpression (properties : List TsNode)
  | identifier (escapedText : String)
  | templateExpression (head : String) (templateSpans : List (TsNode × String))
  | propertyAssignment (name : TsNode) (initializer : TsNode)
  | shorthandPropertyAssignment (name : String)
  | spreadAssignment (expression : TsNode)
  | getAccessor
  | setAccessor
  | methodDeclaration
  | otherNode

/-- The numeric values of the `ts.SymbolFlags` constants the source compares
against with `===`. -/
def SymbolFlags.Property : Nat := 4

/-- `ts.SymbolFlags.BlockScopedVariable`. -/
def SymbolFlags.BlockScopedVariable : Nat := 2

/-- `ts.SymbolFlags.ObjectLiteral`. -/
def SymbolFlags.ObjectLiteral : Nat := 4096

/-- `ts.SymbolFlags.Alias`. -/
def SymbolFlags.Alias : Nat := 2097152

/-- `ts.ObjectFlags.Reference`. -/
def ObjectFlags.Reference : Nat := 4

/-- A checker symbol: the fields `resolveSymbolToLiteral` reads.  `flags` is
the raw bitset (the source compares it with `===`, so combined flags match
no case). -/
structure Symbol where
  flags : Nat
  escapedName : String
  valueDeclaration : Option TsNode

/-- A checker type, discriminated the way `resolveTypeToLiteral` reads
`typeObject.flags`: a `ts.StringLiteralType` / `ts.NumberLiteralType`
carries its `value`; a `ts.ObjectType` carries its `objectFlags` bitset, its
optional `symbol`, and (for a `ts.TypeReference`) the type arguments the
checker's `getTypeArguments` returns; every other flag value is
`otherType` (the dispatch falls through to unresolved on it). -/
inductive TsType (α : Type) where
  | stringLiteralType (value : String)
  | numberLiteralType (value : α)
  | objectType (objectFlags : Nat) (symbol : Option Symbol)
      (typeArguments : List (TsType α))
  | otherType

/-- The checker services the resolver calls, bundled with the program:
`getSymbolAtLocation`, `getAliasedSymbol` (total on symbols), and
`getTypeOfSymbol`. -/
structure Program (α : Type) where
  getSymbolAtLocation : TsNode → Option Symbol
  getAliasedSymbol : Symbol → Symbol
  getTypeOfSymbol : Symbol → TsType α

/-- A JavaScript value as stored in a `ResolverResult`'s `value` field
(`unknown` in the source): `undefined`, a number, a bigint, a string, a
compiled pattern (kept as its source text), a boolean, an array, or a plain
object (insertion-ordered string-keyed entries). -/
inductive JsVal (α : Type) where
  | undef
  | num (v : α)
  | big (v : Int)
  | str (s : String)
  | regex (source : String)
  | bool (b : Bool)
  | arr (elements : List (JsVal α))
  | obj (entries : List (String × JsVal α))

/-- The `ResolverResult` tagged union of the source, one constructor per
variant; `unresolved` is the `{valueType: undefined, value: undefined}`
variant. -/
inductive ResolverResult (α : Type) where
  | numericLiteral (value : α)
  | bigIntLiteral (value : Int)
  | stringLiteral (value : String)
  | regularExpressionLiteral (value : String)
  | trueKeyword
  | falseKeyword
  | arrayLiteralExpression (value : List (JsVal α))
  | objectLiteralExpression (value : List (String × JsVal α))
  | unresolved

/-- The `value` field of a `ResolverResult` (the payload that aggregate
resolution propagates; `undefined` for the unresolved variant). -/
def ResolverResult.value {α : Type} : ResolverResult α → JsVal α
  | .numericLiteral v => .num v
  | .bigIntLiteral v => .big v
  | .stringLiteral v => .str v
  | .regularExpressionLiteral v => .regex v
  | .trueKeyword => .bool true
  | .falseKeyword => .bool false
  | .arrayLiteralExpression v => .arr v
  | .objectLiteralExpression v => .obj v
  | .unresolved => .undef

mutual

/-- JavaScript `ToString` on a `JsVal` (the coercion performed by
`acc[key.value as string] = ...`): `undefined` prints as `"undefined"`,
arrays join their elements with `","`, plain objects print as
`"[object Object]"`, a pattern prints with its delimiters. -/
def jsToString {α : Type} (ops : JsOps α) : JsVal α → String
  | .undef => "undefined"
  | .num v => ops.numToString v
  | .big v => toString v
  | .str s => s
  | .regex src => "/" ++ src ++ "/"
  | .bool true => "true"
  | .bool false => "false"
  | .arr vs => jsJoinList ops vs
  | .obj _ => "[object Object]"

/-- `Array.prototype.join(",")` over already-held element values. -/
def jsJoinList {α : Type} (ops : JsOps α) : List (JsVal α) → String
  | [] => ""
  | [v] => jsJoinElem ops v
  | v :: vs => jsJoinElem ops v ++ "," ++ jsJoinList ops vs

/-- Element conversion inside `Array.prototype.join`: like `ToString`
except `undefined` becomes the empty string. -/
def jsJoinElem {α : Type} (ops : JsOps α) : JsVal α → String
  | .undef => ""
  | .num v => ops.numToString v
  | .big v => toString v
  | .str s => s
  | .regex src => "/" ++ src ++ "/"
  | .bool true => "true"
  | .bool false => "false"
  | .arr vs => jsJoinList ops vs
  | .obj _ => "[object Object]"

end

/-- JavaScript property assignment `acc[k] = v` on an insertion-ordered
object: an existing key keeps its position and gets the new value, a new
key is appended. -/
def objInsert {α : Type} : List (String × JsVal α) → String → JsVal α →
    List (String × JsVal α)
  | [], k, v => [(k, v)]
  | (k', v') :: rest, k, v =>
    if k' = k then (k', v) :: rest else (k', v') :: objInsert rest k v

/-- Property read on the insertion-ordered object representation. -/
def objLookup {α : Type} : List (String × JsVal α) → String → Option (JsVal α)
  | [], _ => none
  | (k', v') :: rest, k => if k' = k then some v' else objLookup rest k

/-- JavaScript `text.slice(1, -1)`: drop the first and the last character. -/
def jsSliceInner (s : String) : String := String.mk (s.data.drop 1).dropLast

/-- The record `mapTemplateSpan` returns. -/
structure MappedSpan where
  canBeResolved : Bool
  stringLiteral : String
deriving DecidableEq

/-- A JavaScript exception thrown during resolution.  The resolver contains
no `try`/`catch`, so a throw propagates out of every recursive caller; the
one throwing operation it performs is `new RegExp(...)`, which throws a
`SyntaxError` on a pattern source the grammar rejects. -/
inductive JsError where
  | syntaxError

/-- The reducer the source passes to `properties.reduce(...)` in the object
case, abstracted over the recursive resolver: only a plain
`ts.isPropertyAssignment` property contributes; its key node is resolved
through the dispatcher and coerced to a string, its initializer's raw
`value` is stored under that key; every other member leaves the
accumulator unchanged. -/
def objectStep {α : Type} (ops : JsOps α)
    (resolve : TsNode → Option (Except JsError (ResolverResult α)))
    (acc : List (String × JsVal α)) (prop : TsNode) :
    Option (Except JsError (List (String × JsVal α))) :=
  match prop with
  | .propertyAssignment name init =>
    match resolve name with
    | none => none
    | some (.error e) => some (.error e)
    | some (.ok key) =>
      match resolve init with
      | none => none
      | some (.error e) => some (.error e)
      | some (.ok value) =>
          some (.ok (objInsert acc (jsToString ops key.value) value.value))
  | _ => some (.ok acc)


mutual

/-- `resolveToLiteral` of the source, with a fuel index: every dispatching
function of the mutual family consumes one unit of fuel on entry, and
`none` means the fuel ran out (the JavaScript recursion would still be
running).  A `some (.error e)` outcome is a thrown JavaScript exception
propagating out of the call; `some (.ok r)` is a returned result.  The
final catch-all arm is the source's fall-through
`return {valueType: undefined, value: undefined}`. -/
def resolveToLiteral {α : Type} (ops : JsOps α) :
    Nat → TsNode → Program α → Option (Except JsError (ResolverResult α))
  | 0, _, _ => none
  | f + 1, expr, p =>
    match expr with
    | .templateExpression head spans =>
        resolveTemplateExpressionToLiteral ops f head spans p
    | .numericLiteral text => some (.ok (.numericLiteral (ops.parseFloat text)))
    | .bigIntLiteral text =>
        some (.ok (.bigIntLiteral (ops.parseBigInt (text.dropRight 1))))
    | .stringLiteral text => some (.ok (.stringLiteral text))
    | .noSubstitutionTemplateLiteral text => some (.ok (.stringLiteral text))
    | .regularExpressionLiteral text =>
        if ops.isValidPattern (jsSliceInner text) then
          some (.ok (.regularExpressionLiteral (jsSliceInner text)))
        else
          some (.error .syntaxError)
    | .trueKeyword => some (.ok .trueKeyword)
    | .falseKeyword => some (.ok .falseKeyword)
    | .prefixUnaryExpression operator operand =>
        resolvePrefixUnaryExpressionToLiteral ops f operator operand p
    | .arrayLiteralExpression elements =>
        match resolveElements ops f elements p with
        | none => none
        | some (.error e) => some (.error e)
        | some (.ok results) =>
            some (.ok (.arrayLiteralExpression (results.map ResolverResult.value)))
    | .parenthesizedExpression expression => resolveToLiteral ops f expression p
    | .computedPropertyName expression => resolveToLiteral ops f expression p
    | .variableDeclaration initializer =>
        match initializer with
        | some init => resolveToLiteral ops f init p
        | none => some (.ok .unresolved)
    | .asExpression expression => resolveToLiteral ops f expression p
    | .objectLiteralExpression properties =>
        match reduceProperties ops f properties [] p with
        | none => none
        | some (.error e) => some (.error e)
        | some (.ok entries) => some (.ok (.objectLiteralExpression entries))
    | .identifier name =>
        match p.getSymbolAtLocation (.identifier name) with
        | none => some (.ok (.stringLiteral name))
        | some symbol =>
            resolveSymbolToLiteral ops f
              (if symbol.flags == SymbolFlags.Alias
               then p.getAliasedSymbol symbol else symbol) p
    | _ => some (.ok .unresolved)
termination_by f _ _ => (f, 0)

/-- The element traversal of the array case
(`elements.map((element) => resolveToLiteral(element, program))`): all
element resolutions at the current fuel, in source order; an element's
thrown exception aborts the traversal (later elements are not
evaluated). -/
def resolveElements {α : Type} (ops : JsOps α) :
    Nat → List TsNode → Program α → Option (Except JsError (List (ResolverResult α)))
  | _, [], _ => some (.ok [])
  | f, element :: rest, p =>
    match resolveToLiteral ops f element p with
    | none => none
    | some (.error e) => some (.error e)
    | some (.ok r) =>
      match resolveElements ops f rest p with
      | none => none
      | some (.error e) => some (.error e)
      | some (.ok rs) => some (.ok (r :: rs))
termination_by f elements _ => (f, elements.length)

/-- The property traversal of the object case
(`properties.reduce(..., {})`), folding `objectStep` left-to-right; a
member's thrown exception aborts the fold. -/
def reduceProperties {α : Type} (ops : JsOps α) :
    Nat → List TsNode → List (String × JsVal α) → Program α →
    Option (Except JsError (List (String × JsVal α)))
  | _, [], acc, _ => some (.ok acc)
  | f, prop :: props, acc, p =>
    match objectStep ops (fun e => resolveToLiteral ops f e p) acc prop with
    | none => none
    | some (.error e) => some (.error e)
    | some (.ok acc') => reduceProperties ops f props acc' p
termination_by f props _ _ => (f, props.length)

/-- `resolvePrefixUnaryExpressionToLiteral`: only `MinusToken` over a
numeric result is folded; everything else is unresolved (for operators
other than minus the operand is never resolved). -/
def resolvePrefixUnaryExpressionToLiteral {α : Type} (ops : JsOps α) :
    Nat → UnaryOperatorToken → TsNode → Program α →
    Option (Except JsError (ResolverResult α))
  | 0, _, _, _ => none
  | f + 1, operator, operand, p =>
    match operator with
    | .minusToken =>
      match resolveToLiteral ops f operand p with
      | none => none
      | some (.error e) => some (.error e)
      | some (.ok result) =>
        match result with
        | .numericLiteral v => some (.ok (.numericLiteral (ops.neg v)))
        | _ => some (.ok .unresolved)
    | _ => some (.ok .unresolved)
termination_by f _ _ _ => (f, 0)

/-- `resolveSymbolToLiteral`: exact-match dispatch on `symbol.flags`;
`ObjectLiteral` (via `break`) and `BlockScopedVariable` (last case) both
fall through to type-based resolution when no `valueDeclaration` exists,
and so does every unlisted flag value. -/
def resolveSymbolToLiteral {α : Type} (ops : JsOps α) :
    Nat → Symbol → Program α → Option (Except JsError (ResolverResult α))
  | 0, _, _ => none
  | f + 1, symbol, p =>
    if symbol.flags == SymbolFlags.Property then
      some (.ok (.stringLiteral symbol.escapedName))
    else if symbol.flags == SymbolFlags.ObjectLiteral then
      match symbol.valueDeclaration with
      | some decl => resolveToLiteral ops f decl p
      | none => resolveTypeToLiteral ops f (p.getTypeOfSymbol symbol) p
    else if symbol.flags == SymbolFlags.BlockScopedVariable then
      match symbol.valueDeclaration with
      | some decl => resolveToLiteral ops f decl p
      | none => resolveTypeToLiteral ops f (p.getTypeOfSymbol symbol) p
    else
      resolveTypeToLiteral ops f (p.getTypeOfSymbol symbol) p
termination_by f _ _ => (f, 0)

/-- `resolveTypeToLiteral`: dispatch on the type's flags. -/
def resolveTypeToLiteral {α : Type} (ops : JsOps α) :
    Nat → TsType α → Program α → Option (Except JsError (ResolverResult α))
  | 0, _, _ => none
  | f + 1, typeObject, p =>
    match typeObject with
    | .stringLiteralType value => some (.ok (.stringLiteral value))
    | .numberLiteralType value => some (.ok (.numericLiteral value))
    | .objectType objectFlags symbol typeArguments =>
        resolveObjectTypeToLiteral ops f objectFlags symbol typeArguments p
    | .otherType => some (.ok .unresolved)
termination_by f _ _ => (f, 0)

/-- `resolveObjectTypeToLiteral`: a `Reference` goes to type-reference
resolution, otherwise the type's symbol (when present) is resolved. -/
def resolveObjectTypeToLiteral {α : Type} (ops : JsOps α) :
    Nat → Nat → Option Symbol → List (TsType α) → Program α →
    Option (Except JsError (ResolverResult α))
  | 0, _, _, _, _ => none
  | f + 1, objectFlags, symbol, typeArguments, p =>
    if objectFlags == ObjectFlags.Reference then
      resolveTypeReferenceToLiteral ops f typeArguments p
    else
      match symbol with
      | some s => resolveSymbolToLiteral ops f s p
      | none => some (.ok .unresolved)
termination_by f _ _ _ _ => (f, 0)

/-- `resolveTypeReferenceToLiteral` applied to the checker's
`getTypeArguments` of the reference: each argument is resolved and its raw
`value` collected under the array discriminant. -/
def resolveTypeReferenceToLiteral {α : Type} (ops : JsOps α) :
    Nat → List (TsType α) → Program α →
    Option (Except JsError (ResolverResult α))
  | 0, _, _ => none
  | f + 1, typeArguments, p =>
    match resolveTypeArgumentsList ops f typeArguments p with
    | none => none
    | some (.error e) => some (.error e)
    | some (.ok results) =>
        some (.ok (.arrayLiteralExpression (results.map ResolverResult.value)))
termination_by f _ _ => (f, 0)

/-- The argument traversal of type-reference resolution
(`typeArguments.map((arg) => resolveTypeToLiteral(arg, program))`). -/
def resolveTypeArgumentsList {α : Type} (ops : JsOps α) :
    Nat → List (TsType α) → Program α →
    Option (Except JsError (List (ResolverResult α)))
  | _, [], _ => some (.ok [])
  | f, arg :: args, p =>
    match resolveTypeToLiteral ops f arg p with
    | none => none
    | some (.error e) => some (.error e)
    | some (.ok r) =>
      match resolveTypeArgumentsList ops f args p with
      | none => none
      | some (.error e) => some (.error e)
      | some (.ok rs) => some (.ok (r :: rs))
termination_by f args _ => (f, args.length)

/-- `resolveTemplateExpressionToLiteral`: map every span, and if all spans
`canBeResolved`, concatenate the head with the joined span strings. -/
def resolveTemplateExpressionToLiteral {α : Type} (ops : JsOps α) :
    Nat → String → List (TsNode × String) → Program α →
    Option (Except JsError (ResolverResult α))
  | 0, _, _, _ => none
  | f + 1, head, templateSpans, p =>
    match mapTemplateSpans ops f templateSpans p with
    | none => none
    | some (.error e) => some (.error e)
    | some (.ok mappedSpans) =>
      if mappedSpans.all (fun span => span.canBeResolved) then
        some (.ok (.stringLiteral
          (head ++ String.join (mappedSpans.map (fun span => span.stringLiteral)))))
      else
        some (.ok .unresolved)
termination_by f _ _ _ => (f, 0)

/-- The span traversal of template resolution
(`templateSpans.map((span) => mapTemplateSpan(span, program))`). -/
def mapTemplateSpans {α : Type} (ops : JsOps α) :
    Nat → List (TsNode × String) → Program α →
    Option (Except JsError (List MappedSpan))
  | _, [], _ => some (.ok [])
  | f, span :: spans, p =>
    match mapTemplateSpan ops f span p with
    | none => none
    | some (.error e) => some (.error e)
    | some (.ok m) =>
      match mapTemplateSpans ops f spans p with
      | none => none
      | some (.error e) => some (.error e)
      | some (.ok ms) => some (.ok (m :: ms))
termination_by f spans _ => (f, spans.length)

/-- `mapTemplateSpan`: stringify the span's expression result when it is a
string, number, bigint or boolean, appending the span's trailing literal
text; otherwise the span cannot be resolved. -/
def mapTemplateSpan {α : Type} (ops : JsOps α) :
    Nat → TsNode × String → Program α → Option (Except JsError MappedSpan)
  | 0, _, _ => none
  | f + 1, (expression, literalText), p =>
    match resolveToLiteral ops f expression p with
    | none => none
    | some (.error e) => some (.error e)
    | some (.ok exprResult) =>
      match exprResult with
      | .stringLiteral v => some (.ok ⟨true, v ++ literalText⟩)
      | .numericLiteral v => some (.ok ⟨true, ops.numToString v ++ literalText⟩)
      | .bigIntLiteral v => some (.ok ⟨true, toString v ++ literalText⟩)
      | .trueKeyword => some (.ok ⟨true, "true" ++ literalText⟩)
      | .falseKeyword => some (.ok ⟨true, "false" ++ literalText⟩)
      | _ => some (.ok ⟨false, ""⟩)
termination_by f _ _ => (f, 0)

end

/-! ### Fuel monotonicity

Adding fuel never changes a result that was already produced; it only turns
`none` (ran out of fuel) into an answer.  This makes the fuel index an
artifact of the embedding rather than of the program. -/

set_option maxHeartbeats 1600000

theorem objectStep_mono {α : Type} (ops : JsOps α)
    {resolve resolve' : TsNode → Option (Except JsError (ResolverResult α))}
    (h : ∀ n r, resolve n = some r → resolve' n = some r) :
    ∀ acc prop res, objectStep ops resolve acc prop = some res →
      objectStep ops resolve' acc prop = some res := by
  intro acc prop res hstep
  cases prop with
  | propertyAssignment name init =>
    simp only [objectStep] at hstep ⊢
    cases hk : resolve name with
    | none => simp [hk] at hstep
    | some ex =>
      simp only [hk] at hstep
      simp only [h name ex hk]
      cases ex with
      | error e => exact hstep
      | ok key =>
        cases hv : resolve init with
        | none => simp [hv] at hstep
        | some ex2 =>
          simp only [hv] at hstep
          simp only [h init ex2 hv]
          exact hstep
  | _ => simp_all [objectStep]

theorem resolveElements_mono {α : Type} (ops : JsOps α) {f f' : Nat}
    {p : Program α}
    (h1 : ∀ n r, resolveToLiteral ops f n p = some r →
      resolveToLiteral ops f' n p = some r) :
    ∀ es rs, resolveElements ops f es p = some rs →
      resolveElements ops f' es p = some rs := by
  intro es
  induction es with
  | nil => intro rs h; simpa [resolveElements] using h
  | cons e es ih =>
    intro rs h
    simp only [resolveElements] at h ⊢
    cases he : resolveToLiteral ops f e p with
    | none => simp [he] at h
    | some ex =>
      simp only [he] at h
      simp only [h1 e ex he]
      cases ex with
      | error err => exact h
      | ok r =>
        cases hes : resolveElements ops f es p with
        | none => simp [hes] at h
        | some ex2 =>
          simp only [hes] at h
          simp only [ih ex2 hes]
          exact h

theorem reduceProperties_mono {α : Type} (ops : JsOps α) {f f' : Nat}
    {p : Program α}
    (h1 : ∀ n r, resolveToLiteral ops f n p = some r →
      resolveToLiteral ops f' n p = some r) :
    ∀ props acc res, reduceProperties ops f props acc p = some res →
      reduceProperties ops f' props acc p = some res := by
  intro props
  induction props with
  | nil => intro acc res h; simpa [reduceProperties] using h
  | cons prop props ih =>
    intro acc res h
    simp only [reduceProperties] at h ⊢
    cases hs : objectStep ops (fun e => resolveToLiteral ops f e p) acc prop with
    | none => simp [hs] at h
    | some ex =>
      simp only [hs] at h
      simp only [objectStep_mono ops (fun n r hr => h1 n r hr) acc prop ex hs]
      cases ex with
      | error err => exact h
      | ok acc' => exact ih acc' res h

theorem resolveTypeArgumentsList_mono {α : Type} (ops : JsOps α) {f f' : Nat}
    {p : Program α}
    (h4 : ∀ t r, resolveTypeToLiteral ops f t p = some r →
      resolveTypeToLiteral ops f' t p = some r) :
    ∀ args rs, resolveTypeArgumentsList ops f args p = some rs →
      resolveTypeArgumentsList ops f' args p = some rs := by
  intro args
  induction args with
  | nil => intro rs h; simpa [resolveTypeArgumentsList] using h
  | cons a args ih =>
    intro rs h
    simp only [resolveTypeArgumentsList] at h ⊢
    cases ha : resolveTypeToLiteral ops f a p with
    | none => simp [ha] at h
    | some ex =>
      simp only [ha] at h
      simp only [h4 a ex ha]
      cases ex with
      | error err => exact h
      | ok r =>
        cases has : resolveTypeArgumentsList ops f args p with
        | none => simp [has] at h
        | some ex2 =>
          simp only [has] at h
          simp only [ih ex2 has]
          exact h

theorem mapTemplateSpans_mono {α : Type} (ops : JsOps α) {f f' : Nat}
    {p : Program α}
    (h8 : ∀ sp r, mapTemplateSpan ops f sp p = some r →
      mapTemplateSpan ops f' sp p = some r) :
    ∀ spans ms, mapTemplateSpans ops f spans p = some ms →
      mapTemplateSpans ops f' spans p = some ms := by
  intro spans
  induction spans with
  | nil => intro ms h; simpa [mapTemplateSpans] using h
  | cons sp spans ih =>
    intro ms h
    simp only [mapTemplateSpans] at h ⊢
    cases hs : mapTemplateSpan ops f sp p with
    | none => simp [hs] at h
    | some ex =>
      simp only [hs] at h
      simp only [h8 sp ex hs]
      cases ex with
      | error err => exact h
      | ok m =>
        cases hss : mapTemplateSpans ops f spans p with
        | none => simp [hss] at h
        | some ex2 =>
          simp only [hss] at h
          simp only [ih ex2 hss]
          exact h

theorem resolveMonoBundle {α : Type} (ops : JsOps α) :
    ∀ f f', f ≤ f' →
      ((∀ n p r, resolveToLiteral ops f n p = some r →
          resolveToLiteral ops f' n p = some r) ∧
       (∀ o nd p r, resolvePrefixUnaryExpressionToLiteral ops f o nd p = some r →
          resolvePrefixUnaryExpressionToLiteral ops f' o nd p = some r) ∧
       (∀ s p r, resolveSymbolToLiteral ops f s p = some r →
          resolveSymbolToLiteral ops f' s p = some r) ∧
       (∀ t p r, resolveTypeToLiteral ops f t p = some r →
          resolveTypeToLiteral ops f' t p = some r) ∧
       (∀ b s args p r, resolveObjectTypeToLiteral ops f b s args p = some r →
          resolveObjectTypeToLiteral ops f' b s args p = some r) ∧
       (∀ args p r, resolveTypeReferenceToLiteral ops f args p = some r →
          resolveTypeReferenceToLiteral ops f' args p = some r) ∧
       (∀ hd sp p r, resolveTemplateExpressionToLiteral ops f hd sp p = some r →
          resolveTemplateExpressionToLiteral ops f' hd sp p = some r) ∧
       (∀ sp p r, mapTemplateSpan ops f sp p = some r →
          mapTemplateSpan ops f' sp p = some r)) := by
  intro f
  induction f with
  | zero =>
    intro f' _
    refine ⟨?_, ?_, ?_, ?_, ?_, ?_, ?_, ?_⟩ <;> intros <;>
      simp_all [resolveToLiteral, resolvePrefixUnaryExpressionToLiteral,
        resolveSymbolToLiteral, resolveTypeToLiteral, resolveObjectTypeToLiteral,
        resolveTypeReferenceToLiteral, resolveTemplateExpressionToLiteral,
        mapTemplateSpan]
  | succ f ih =>
    intro f' hff'
    obtain ⟨f2, rfl⟩ : ∃ f2, f' = f2 + 1 := ⟨f' - 1, by omega⟩
    have hf2 : f ≤ f2 := by omega
    obtain ⟨m1, m2, m3, m4, m5, m6, m7, m8⟩ := ih f2 hf2
    refine ⟨?_, ?_, ?_, ?_, ?_, ?_, ?_, ?_⟩
    · intro n p r h
      cases n with
      | templateExpression head spans =>
        simp only [resolveToLiteral] at h ⊢
        exact m7 head spans p r h
      | prefixUnaryExpression o nd =>
        simp only [resolveToLiteral] at h ⊢
        exact m2 o nd p r h
      | arrayLiteralExpression elements =>
        simp only [resolveToLiteral] at h ⊢
        cases he : resolveElements ops f elements p with
        | none => simp [he] at h
        | some rs =>
          simp only [he] at h
          simp only [resolveElements_mono ops (fun n r hr => m1 n p r hr) elements rs he]
          exact h
      | parenthesizedExpression e =>
        simp only [resolveToLiteral] at h ⊢
        exact m1 e p r h
      | computedPropertyName e =>
        simp only [resolveToLiteral] at h ⊢
        exact m1 e p r h
      | variableDeclaration initializer =>
        cases initializer with
        | none => simpa [resolveToLiteral] using h
        | some init =>
          simp only [resolveToLiteral] at h ⊢
          exact m1 init p r h
      | asExpression e =>
        simp only [resolveToLiteral] at h ⊢
        exact m1 e p r h
      | objectLiteralExpression properties =>
        simp only [resolveToLiteral] at h ⊢
        cases he : reduceProperties ops f properties [] p with
        | none => simp [he] at h
        | some entries =>
          simp only [he] at h
          simp only [reduceProperties_mono ops (fun n r hr => m1 n p r hr)
            properties [] entries he]
          exact h
      | identifier name =>
        simp only [resolveToLiteral] at h ⊢
        cases hs : p.getSymbolAtLocation (.identifier name) with
        | none => simp only [hs] at h ⊢; exact h
        | some s =>
          simp only [hs] at h ⊢
          exact m3 _ p r h
      | _ => simp_all [resolveToLiteral]
    · intro o nd p r h
      cases o with
      | minusToken =>
        simp only [resolvePrefixUnaryExpressionToLiteral] at h ⊢
        cases hres : resolveToLiteral ops f nd p with
        | none => simp [hres] at h
        | some res =>
          simp only [hres] at h
          simp only [m1 nd p res hres]
          exact h
      | _ => simp_all [resolvePrefixUnaryExpressionToLiteral]
    · intro s p r h
      simp only [resolveSymbolToLiteral] at h ⊢
      by_cases h1 : (s.flags == SymbolFlags.Property) = true
      · simp only [if_pos h1] at h ⊢; exact h
      · simp only [if_neg h1] at h ⊢
        by_cases h2 : (s.flags == SymbolFlags.ObjectLiteral) = true
        · simp only [if_pos h2] at h ⊢
          cases hd : s.valueDeclaration with
          | some decl => simp only [hd] at h ⊢; exact m1 decl p r h
          | none => simp only [hd] at h ⊢; exact m4 _ p r h
        · simp only [if_neg h2] at h ⊢
          by_cases h3 : (s.flags == SymbolFlags.BlockScopedVariable) = true
          · simp only [if_pos h3] at h ⊢
            cases hd : s.valueDeclaration with
            | some decl => simp only [hd] at h ⊢; exact m1 decl p r h
            | none => simp only [hd] at h ⊢; exact m4 _ p r h
          · simp only [if_neg h3] at h ⊢
            exact m4 _ p r h
    · intro t p r h
      cases t with
      | stringLiteralType v => simpa [resolveTypeToLiteral] using h
      | numberLiteralType v => simpa [resolveTypeToLiteral] using h
      | otherType => simpa [resolveTypeToLiteral] using h
      | objectType b s args =>
        simp only [resolveTypeToLiteral] at h ⊢
        exact m5 b s args p r h
    · intro b s args p r h
      cases s with
      | none =>
        simp only [resolveObjectTypeToLiteral] at h ⊢
        by_cases hb : (b == ObjectFlags.Reference) = true
        · simp only [if_pos hb] at h ⊢
          exact m6 args p r h
        · simp only [if_neg hb] at h ⊢
          exact h
      | some sym =>
        simp only [resolveObjectTypeToLiteral] at h ⊢
        by_cases hb : (b == ObjectFlags.Reference) = true
        · simp only [if_pos hb] at h ⊢
          exact m6 args p r h
        · simp only [if_neg hb] at h ⊢
          exact m3 sym p r h
    · intro args p r h
      simp only [resolveTypeReferenceToLiteral] at h ⊢
      cases ha : resolveTypeArgumentsList ops f args p with
      | none => simp [ha] at h
      | some rs =>
        simp only [ha] at h
        simp only [resolveTypeArgumentsList_mono ops (fun t r hr => m4 t p r hr) args rs ha]
        exact h
    · intro hd sp p r h
      simp only [resolveTemplateExpressionToLiteral] at h ⊢
      cases hm : mapTemplateSpans ops f sp p with
      | none => simp [hm] at h
      | some ms =>
        simp only [hm] at h
        simp only [mapTemplateSpans_mono ops (fun x r hx => m8 x p r hx) sp ms hm]
        exact h
    · intro sp p r h
      obtain ⟨e, lit⟩ := sp
      simp only [mapTemplateSpan] at h ⊢
      cases hres : resolveToLiteral ops f e p with
      | none => simp [hres] at h
      | some res =>
        simp only [hres] at h
        simp only [m1 e p res hres]
        exact h

/-! ### Fuel-free resolution relations

`Resolves n p r` states that the JavaScript recursion terminates on `n`
and returns `r`; `Throws n p` that it terminates by propagating a thrown
`SyntaxError`; `Diverges n p` that it never finishes (in the source this
is unbounded recursion, i.e. a stack overflow). -/

/-- The call `resolveToLiteral(n, p)` terminates and returns `r`. -/
def Resolves {α : Type} (ops : JsOps α) (n : TsNode) (p : Program α)
    (r : ResolverResult α) : Prop :=
  ∃ f, resolveToLiteral ops f n p = some (Except.ok r)

/-- The call `resolveSymbolToLiteral(s, p)` terminates and returns `r`. -/
def SymbolResolves {α : Type} (ops : JsOps α) (s : Symbol) (p : Program α)
    (r : ResolverResult α) : Prop :=
  ∃ f, resolveSymbolToLiteral ops f s p = some (Except.ok r)

/-- The call `resolveTypeToLiteral(t, p)` terminates and returns `r`. -/
def TypeResolves {α : Type} (ops : JsOps α) (t : TsType α) (p : Program α)
    (r : ResolverResult α) : Prop :=
  ∃ f, resolveTypeToLiteral ops f t p = some (Except.ok r)

/-- The call `resolveTypeReferenceToLiteral`, on a reference whose checker
type arguments are `args`, terminates and returns `r`. -/
def TypeRefResolves {α : Type} (ops : JsOps α) (args : List (TsType α))
    (p : Program α) (r : ResolverResult α) : Prop :=
  ∃ f, resolveTypeReferenceToLiteral ops f args p = some (Except.ok r)

theorem resolveToLiteral_mono {α : Type} (ops : JsOps α) {f f' : Nat}
    {n : TsNode} {p : Program α} {r : Except JsError (ResolverResult α)}
    (hf : f ≤ f')
    (h : resolveToLiteral ops f n p = some r) :
    resolveToLiteral ops f' n p = some r :=
  (resolveMonoBundle ops f f' hf).1 n p r h

theorem resolveSymbolToLiteral_mono {α : Type} (ops : JsOps α) {f f' : Nat}
    {s : Symbol} {p : Program α} {r : Except JsError (ResolverResult α)}
    (hf : f ≤ f')
    (h : resolveSymbolToLiteral ops f s p = some r) :
    resolveSymbolToLiteral ops f' s p = some r :=
  (resolveMonoBundle ops f f' hf).2.2.1 s p r h

theorem resolveTypeToLiteral_mono {α : Type} (ops : JsOps α) {f f' : Nat}
    {t : TsType α} {p : Program α} {r : Except JsError (ResolverResult α)}
    (hf : f ≤ f')
    (h : resolveTypeToLiteral ops f t p = some r) :
    resolveTypeToLiteral ops f' t p = some r :=
  (resolveMonoBundle ops f f' hf).2.2.2.1 t p r h

theorem resolveTypeReferenceToLiteral_mono {α : Type} (ops : JsOps α)
    {f f' : Nat} {args : List (TsType α)} {p : Program α}
    {r : Except JsError (ResolverResult α)} (hf : f ≤ f')
    (h : resolveTypeReferenceToLiteral ops f args p = some r) :
    resolveTypeReferenceToLiteral ops f' args p = some r :=
  (resolveMonoBundle ops f f' hf).2.2.2.2.2.1 args p r h

theorem mapTemplateSpan_mono {α : Type} (ops : JsOps α) {f f' : Nat}
    {sp : TsNode × String} {p : Program α} {r : Except JsError MappedSpan}
    (hf : f ≤ f')
    (h : mapTemplateSpan ops f sp p = some r) :
    mapTemplateSpan ops f' sp p = some r :=
  (resolveMonoBundle ops f f' hf).2.2.2.2.2.2.2 sp p r h

theorem Resolves.functional {α : Type} (ops : JsOps α) {n : TsNode}
    {p : Program α} {r₁ r₂ : ResolverResult α}
    (h₁ : Resolves ops n p r₁) (h₂ : Resolves ops n p r₂) : r₁ = r₂ := by
  obtain ⟨f₁, h₁⟩ := h₁
  obtain ⟨f₂, h₂⟩ := h₂
  have e₁ := resolveToLiteral_mono ops (Nat.le_max_left f₁ f₂) h₁
  have e₂ := resolveToLiteral_mono ops (Nat.le_max_right f₁ f₂) h₂
  rw [e₁, Option.some.injEq, Except.ok.injEq] at e₂
  exact e₂

/-! ### Concrete instances used by closed witnesses -/

/-- A decimal-digit accumulator, so that witness programs can evaluate
number parsing inside the kernel. -/
def decimalNat : List Char → Nat → Nat
  | [], acc => acc
  | c :: cs, acc => decimalNat cs (acc * 10 + (c.toNat - 48))

/-- A concrete instantiation of the abstract JavaScript number type at
`Int`, adequate for witnesses whose literals are plain decimal integers
(on those, `parseFloat` and `BigInt` agree with integer parsing).  Its
pattern grammar models the one runtime fact the witnesses use: every
pattern source they mention is accepted by `new RegExp` except `a(`, on
which the constructor throws a `SyntaxError`. -/
def intOps : JsOps Int where
  parseFloat := fun s => Int.ofNat (decimalNat s.data 0)
  numToString := fun n => toString n
  neg := fun n => -n
  parseBigInt := fun s => Int.ofNat (decimalNat s.data 0)
  isValidPattern := fun s => s != "a("

/-- A semantic model that binds no symbol at all. -/
def emptyProgram : Program Int where
  getSymbolAtLocation := fun _ => none
  getAliasedSymbol := fun s => s
  getTypeOfSymbol := fun _ => TsType.otherType

/-! ### C9 — determinism across invocations -/

/-- C9: resolving the same node against the same (pure, unchanged) model in
two separate invocations yields identical results: the embedded resolver
is a pure function of `(node, program)` — the fuel index, the only other
input, never changes a produced answer (`resolveMonoBundle`), so any two
terminating runs agree. -/
theorem resolve_deterministic {α : Type} (ops : JsOps α) (n : TsNode)
    (p : Program α) (r₁ r₂ : ResolverResult α)
    (h₁ : Resolves ops n p r₁) (h₂ : Resolves ops n p r₂) : r₁ = r₂ :=
  Resolves.functional ops h₁ h₂

/-- Witness for C9 at a concrete node and model, with the two invocations
run at different stack budgets. -/
theorem resolve_deterministic_witness :
    Resolves intOps .trueKeyword emptyProgram .trueKeyword ∧
    (ResolverResult.trueKeyword : ResolverResult Int) = .trueKeyword := by
  have h₁ : Resolves intOps .trueKeyword emptyProgram .trueKeyword :=
    ⟨1, by simp [resolveToLiteral]⟩
  have h₂ : Resolves intOps .trueKeyword emptyProgram .trueKeyword :=
    ⟨2, by simp [resolveToLiteral]⟩
  exact ⟨h₁, resolve_deterministic intOps .trueKeyword emptyProgram _ _ h₁ h₂⟩

/-! ### C5 — unbound identifier fallback -/

/-- C5: when the semantic model binds no symbol to an identifier, the
resolver does not fail: it returns the identifier's own text as a
text-tagged literal. -/
theorem unbound_identifier_resolves_to_name {α : Type} (ops : JsOps α)
    (p : Program α) (name : String)
    (h : p.getSymbolAtLocation (.identifier name) = none) :
    Resolves ops (.identifier name) p (.stringLiteral name) :=
  ⟨1, by simp [resolveToLiteral, h]⟩

/-- Witness for C5: an unbound identifier `foo` resolves to the text
literal `"foo"`. -/
theorem unbound_identifier_resolves_to_name_witness :
    emptyProgram.getSymbolAtLocation (.identifier "foo") = none ∧
    Resolves intOps (.identifier "foo") emptyProgram (.stringLiteral "foo") :=
  ⟨rfl, unbound_identifier_resolves_to_name intOps emptyProgram "foo" rfl⟩

/-! ### C6 — pattern literals -/

theorem jsSliceInner_delimited (body : String) :
    jsSliceInner ("/" ++ body ++ "/") = body := by
  obtain ⟨l⟩ := body
  simp [jsSliceInner]

/-- Counterexample to C6 as stated: the flagged pattern literal `/abc/gi`,
whose body is `abc`, resolves to a pattern compiled from `"abc/g"` —
`text.slice(1, -1)` strips the first character and the *last flag*, not
the surrounding delimiters, so the closing delimiter and the remaining
flag are baked into the compiled pattern instead of being stripped. -/
theorem pattern_literal_flags_not_stripped :
    resolveToLiteral intOps 1 (.regularExpressionLiteral "/abc/gi") emptyProgram
      = some (Except.ok (.regularExpressionLiteral "abc/g")) ∧
    "abc/g" ≠ "abc" := by
  constructor
  · simp +decide [resolveToLiteral, intOps, jsSliceInner]
  · decide

/-- C6 (amended): a pattern literal written in the unflagged delimited
form `/body/`, whose body the `RegExp` constructor accepts, resolves to
the compiled pattern built from the body with the surrounding delimiters
stripped, tagged as the pattern kind.  (In general the code strips
exactly the first and last character of the node text — so a flagged
literal keeps its closing delimiter and all but its last flag in the
pattern — and a rejected body makes the constructor throw a
`SyntaxError` instead of returning.) -/
theorem pattern_literal_strips_delimiters {α : Type} (ops : JsOps α)
    (p : Program α) (body : String)
    (hvalid : ops.isValidPattern body = true) :
    Resolves ops (.regularExpressionLiteral ("/" ++ body ++ "/")) p
      (.regularExpressionLiteral body) :=
  ⟨1, by simp [resolveToLiteral, jsSliceInner_delimited, hvalid]⟩

/-- Witness for the amended C6 at the unflagged literal `/ab/`. -/
theorem pattern_literal_strips_delimiters_witness :
    intOps.isValidPattern "ab" = true ∧
    Resolves intOps (.regularExpressionLiteral ("/" ++ "ab" ++ "/"))
      emptyProgram (.regularExpressionLiteral "ab") :=
  ⟨by decide, pattern_literal_strips_delimiters intOps emptyProgram "ab" (by decide)⟩

/-! ### C7 — one-step alias indirection -/

/-- C7: when the looked-up symbol has exactly the alias classification, the
resolver continues with `getAliasedSymbol` applied once and dispatches on
that symbol's classification; in particular if the aliased symbol is again
an alias, no second hop happens — the dispatch finds no matching case and
falls through to type-based resolution. -/
theorem alias_single_hop {α : Type} (ops : JsOps α) (p : Program α)
    (name : String) (s : Symbol) (f : Nat)
    (hs : p.getSymbolAtLocation (.identifier name) = some s)
    (halias : s.flags = SymbolFlags.Alias) :
    resolveToLiteral ops (f + 1) (.identifier name) p
      = resolveSymbolToLiteral ops f (p.getAliasedSymbol s) p ∧
    ((p.getAliasedSymbol s).flags = SymbolFlags.Alias →
      resolveSymbolToLiteral ops (f + 1) (p.getAliasedSymbol s) p
        = resolveTypeToLiteral ops f (p.getTypeOfSymbol (p.getAliasedSymbol s)) p) := by
  constructor
  · simp [resolveToLiteral, hs, halias]
  · intro h2
    simp [resolveSymbolToLiteral, h2, SymbolFlags.Alias, SymbolFlags.Property,
      SymbolFlags.ObjectLiteral, SymbolFlags.BlockScopedVariable]

/-- An alias symbol whose target is itself an alias symbol. -/
def aliasSymbolA : Symbol := ⟨SymbolFlags.Alias, "a", none⟩

/-- The target of `aliasSymbolA`, itself alias-classified. -/
def aliasSymbolB : Symbol := ⟨SymbolFlags.Alias, "b", none⟩

/-- A model with a two-hop alias chain `x ↦ aliasSymbolA ↦ aliasSymbolB`. -/
def aliasProgram : Program Int where
  getSymbolAtLocation := fun n =>
    match n with
    | .identifier s => if s = "x" then some aliasSymbolA else none
    | _ => none
  getAliasedSymbol := fun _ => aliasSymbolB
  getTypeOfSymbol := fun _ => TsType.otherType

/-- Witness for C7 on the two-hop chain: one hop is taken, the second is
not (resolution of the aliased alias falls through to its type). -/
theorem alias_single_hop_witness :
    aliasProgram.getSymbolAtLocation (.identifier "x") = some aliasSymbolA ∧
    aliasSymbolA.flags = SymbolFlags.Alias ∧
    (resolveToLiteral intOps 1 (.identifier "x") aliasProgram
      = resolveSymbolToLiteral intOps 0 (aliasProgram.getAliasedSymbol aliasSymbolA) aliasProgram ∧
    ((aliasProgram.getAliasedSymbol aliasSymbolA).flags = SymbolFlags.Alias →
      resolveSymbolToLiteral intOps 1 (aliasProgram.getAliasedSymbol aliasSymbolA) aliasProgram
        = resolveTypeToLiteral intOps 0
            (aliasProgram.getTypeOfSymbol (aliasProgram.getAliasedSymbol aliasSymbolA)) aliasProgram)) :=
  ⟨rfl, rfl, alias_single_hop intOps aliasProgram "x" aliasSymbolA 0 rfl rfl⟩

/-! ### Traversal and inversion lemmas for the aggregate cases -/

theorem resolveElements_of_forall₂ {α : Type} (ops : JsOps α) {p : Program α} :
    ∀ {es : List TsNode} {rs : List (ResolverResult α)},
      List.Forall₂ (fun e r => Resolves ops e p r) es rs →
      ∃ f, resolveElements ops f es p = some (Except.ok rs) := by
  intro es rs h
  induction h with
  | nil => exact ⟨0, by simp [resolveElements]⟩
  | cons h1 _ ih =>
    obtain ⟨f₁, hf₁⟩ := h1
    obtain ⟨f₂, hf₂⟩ := ih
    refine ⟨max f₁ f₂, ?_⟩
    have he := resolveToLiteral_mono ops (Nat.le_max_left f₁ f₂) hf₁
    have hes := resolveElements_mono ops
      (fun n r hr => resolveToLiteral_mono ops (Nat.le_max_right f₁ f₂) hr) _ _ hf₂
    simp [resolveElements, he, hes]

theorem resolveTypeArgumentsList_of_forall₂ {α : Type} (ops : JsOps α)
    {p : Program α} :
    ∀ {ts : List (TsType α)} {rs : List (ResolverResult α)},
      List.Forall₂ (fun t r => TypeResolves ops t p r) ts rs →
      ∃ f, resolveTypeArgumentsList ops f ts p = some (Except.ok rs) := by
  intro ts rs h
  induction h with
  | nil => exact ⟨0, by simp [resolveTypeArgumentsList]⟩
  | cons h1 _ ih =>
    obtain ⟨f₁, hf₁⟩ := h1
    obtain ⟨f₂, hf₂⟩ := ih
    refine ⟨max f₁ f₂, ?_⟩
    have ht := resolveTypeToLiteral_mono ops (Nat.le_max_left f₁ f₂) hf₁
    have hts := resolveTypeArgumentsList_mono ops
      (fun t r hr => resolveTypeToLiteral_mono ops (Nat.le_max_right f₁ f₂) hr) _ _ hf₂
    simp [resolveTypeArgumentsList, ht, hts]

theorem resolveToLiteral_array_inv {α : Type} (ops : JsOps α) {f : Nat}
    {elements : List TsNode} {p : Program α} {r : ResolverResult α}
    (h : resolveToLiteral ops f (.arrayLiteralExpression elements) p
      = some (Except.ok r)) :
    ∃ f' rs, resolveElements ops f' elements p = some (Except.ok rs) ∧
      r = .arrayLiteralExpression (rs.map ResolverResult.value) := by
  match f with
  | 0 => simp [resolveToLiteral] at h
  | f + 1 =>
    simp only [resolveToLiteral] at h
    cases he : resolveElements ops f elements p with
    | none => simp [he] at h
    | some ex =>
      cases ex with
      | error e => simp [he] at h
      | ok rs =>
        simp only [he, Option.some.injEq, Except.ok.injEq] at h
        exact ⟨f, rs, he, h.symm⟩

theorem resolveTypeReferenceToLiteral_inv {α : Type} (ops : JsOps α) {f : Nat}
    {args : List (TsType α)} {p : Program α} {r : ResolverResult α}
    (h : resolveTypeReferenceToLiteral ops f args p = some (Except.ok r)) :
    ∃ f' rs, resolveTypeArgumentsList ops f' args p = some (Except.ok rs) ∧
      r = .arrayLiteralExpression (rs.map ResolverResult.value) := by
  match f with
  | 0 => simp [resolveTypeReferenceToLiteral] at h
  | f + 1 =>
    simp only [resolveTypeReferenceToLiteral] at h
    cases ha : resolveTypeArgumentsList ops f args p with
    | none => simp [ha] at h
    | some ex =>
      cases ex with
      | error e => simp [ha] at h
      | ok rs =>
        simp only [ha, Option.some.injEq, Except.ok.injEq] at h
        exact ⟨f, rs, ha, h.symm⟩

/-! ### C3 — array aggregation -/

/-- C3: when every element's recursive resolution terminates, the array
node resolves to the array discriminant whose sequence has exactly one
entry per element, in source order, each entry being the raw `value` field
of the element's result (an unresolved element contributes
`JsVal.undef`, the embedding of `undefined`); and any result the array
node can resolve to carries the array discriminant, never the unresolved
tag. -/
theorem array_resolution_shape {α : Type} (ops : JsOps α) (p : Program α)
    (elements : List TsNode) (results : List (ResolverResult α))
    (h : List.Forall₂ (fun e r => Resolves ops e p r) elements results) :
    Resolves ops (.arrayLiteralExpression elements) p
      (.arrayLiteralExpression (results.map ResolverResult.value)) ∧
    (results.map ResolverResult.value).length = elements.length ∧
    (∀ (i : Nat) (r' : ResolverResult α), results[i]? = some r' →
      (results.map ResolverResult.value)[i]? = some r'.value) ∧
    (∀ r', Resolves ops (.arrayLiteralExpression elements) p r' →
      ∃ vs, r' = .arrayLiteralExpression vs) := by
  obtain ⟨f, hf⟩ := resolveElements_of_forall₂ ops h
  refine ⟨⟨f + 1, by simp [resolveToLiteral, hf]⟩, ?_, ?_, ?_⟩
  · have := h.length_eq
    simp only [List.length_map]
    omega
  · intro i r' hi
    simp [List.getElem?_map, hi]
  · intro r' hr'
    obtain ⟨f', hf'⟩ := hr'
    obtain ⟨f'', rs, _, hshape⟩ := resolveToLiteral_array_inv ops hf'
    exact ⟨rs.map ResolverResult.value, hshape⟩

/-- Witness for C3: `["hello", <unsupported node>]` resolves to the array
discriminant with the unresolved element contributing an undefined hole. -/
theorem array_resolution_shape_witness :
    Resolves intOps (.arrayLiteralExpression [.stringLiteral "hello", .otherNode])
      emptyProgram (.arrayLiteralExpression [.str "hello", .undef]) := by
  have h : List.Forall₂ (fun e r => Resolves intOps e emptyProgram r)
      [.stringLiteral "hello", .otherNode]
      [ResolverResult.stringLiteral "hello", ResolverResult.unresolved] := by
    refine List.Forall₂.cons ⟨1, by simp [resolveToLiteral]⟩ ?_
    exact List.Forall₂.cons ⟨1, by simp [resolveToLiteral]⟩ List.Forall₂.nil
  have hmain := (array_resolution_shape intOps emptyProgram _ _ h).1
  simpa [ResolverResult.value] using hmain

/-! ### C10 — type-reference aggregation -/

/-- C10: type-reference resolution mirrors the syntactic array policy: when
every checker type argument's resolution terminates, the result is the
array discriminant with one raw `value` entry per argument in order
(failed arguments contributing `undefined` holes as `JsVal.undef`); a
terminating type-reference resolution always carries the array
discriminant, never the unresolved tag; the dispatcher reaches it from any
`Reference`-flagged object type; and zero type arguments give the empty
sequence. -/
theorem type_reference_resolution_shape {α : Type} (ops : JsOps α)
    (p : Program α) (args : List (TsType α)) (results : List (ResolverResult α))
    (h : List.Forall₂ (fun t r => TypeResolves ops t p r) args results) :
    TypeRefResolves ops args p
      (.arrayLiteralExpression (results.map ResolverResult.value)) ∧
    results.length = args.length ∧
    (∀ f r, resolveTypeReferenceToLiteral ops f args p = some (Except.ok r) →
      ∃ vs, r = .arrayLiteralExpression vs) ∧
    (∀ sym f, resolveTypeToLiteral ops (f + 2)
        (.objectType ObjectFlags.Reference sym args) p
      = resolveTypeReferenceToLiteral ops f args p) ∧
    (args = [] → TypeRefResolves ops [] p (.arrayLiteralExpression [])) := by
  obtain ⟨f, hf⟩ := resolveTypeArgumentsList_of_forall₂ ops h
  refine ⟨⟨f + 1, by simp [resolveTypeReferenceToLiteral, hf]⟩, h.length_eq.symm, ?_, ?_, ?_⟩
  · intro f' r hr
    obtain ⟨f'', rs, _, hshape⟩ := resolveTypeReferenceToLiteral_inv ops hr
    exact ⟨rs.map ResolverResult.value, hshape⟩
  · intro sym f'
    cases sym <;> simp [resolveTypeToLiteral, resolveObjectTypeToLiteral]
  · intro _
    exact ⟨1, by simp [resolveTypeReferenceToLiteral, resolveTypeArgumentsList]⟩

/-- Witness for C10: a reference with a literal-string argument and an
unresolvable argument resolves to the array discriminant with an
undefined hole; the zero-argument reference gives the empty sequence. -/
theorem type_reference_resolution_shape_witness :
    TypeRefResolves intOps [.stringLiteralType "a", .otherType] emptyProgram
      (.arrayLiteralExpression [.str "a", .undef]) ∧
    TypeRefResolves intOps [] emptyProgram (.arrayLiteralExpression []) := by
  have h : List.Forall₂ (fun t r => TypeResolves intOps t emptyProgram r)
      [.stringLiteralType "a", .otherType]
      [ResolverResult.stringLiteral "a", ResolverResult.unresolved] := by
    refine List.Forall₂.cons ⟨1, by simp [resolveTypeToLiteral]⟩ ?_
    exact List.Forall₂.cons ⟨1, by simp [resolveTypeToLiteral]⟩ List.Forall₂.nil
  constructor
  · have hmain := (type_reference_resolution_shape intOps emptyProgram _ _ h).1
    simpa [ResolverResult.value] using hmain
  · exact (type_reference_resolution_shape intOps emptyProgram [] []
      List.Forall₂.nil).2.2.2.2 rfl

/-! ### C2 — template interpolation -/

/-- The textual form a span's expression result contributes to a template:
defined (as in `mapTemplateSpan`) exactly for the text, numeric,
arbitrary-precision-integer and boolean variants, and `none` for every
other variant, including the unresolved one. -/
def stringifySpanResult {α : Type} (ops : JsOps α) :
    ResolverResult α → Option String
  | .stringLiteral v => some v
  | .numericLiteral v => some (ops.numToString v)
  | .bigIntLiteral v => some (toString v)
  | .trueKeyword => some "true"
  | .falseKeyword => some "false"
  | _ => none

/-- The record `mapTemplateSpan` produces once the span's expression has
resolved to `r`, given the span's trailing literal text. -/
def spanRecordOf {α : Type} (ops : JsOps α) (r : ResolverResult α)
    (lit : String) : MappedSpan :=
  match stringifySpanResult ops r with
  | some s => ⟨true, s ++ lit⟩
  | none => ⟨false, ""⟩

theorem mapTemplateSpan_eq {α : Type} (ops : JsOps α) {f : Nat} {e : TsNode}
    {p : Program α} {r : ResolverResult α} (lit : String)
    (h : resolveToLiteral ops f e p = some (Except.ok r)) :
    mapTemplateSpan ops (f + 1) (e, lit) p
      = some (Except.ok (spanRecordOf ops r lit)) := by
  cases r <;> simp [mapTemplateSpan, stringifySpanResult, spanRecordOf, h]

theorem mapTemplateSpans_of_forall₂ {α : Type} (ops : JsOps α) {p : Program α} :
    ∀ {spans : List (TsNode × String)} {results : List (ResolverResult α)},
      List.Forall₂ (fun sp r => Resolves ops sp.1 p r) spans results →
      ∃ f, mapTemplateSpans ops f spans p
        = some (Except.ok
            (List.zipWith (fun sp r => spanRecordOf ops r sp.2) spans results)) := by
  intro spans results h
  induction h with
  | nil => exact ⟨0, by simp [mapTemplateSpans]⟩
  | @cons sp r sps rs h1 _ ih =>
    obtain ⟨e, lit⟩ := sp
    obtain ⟨f₁, hf₁⟩ := h1
    obtain ⟨f₂, hf₂⟩ := ih
    refine ⟨max (f₁ + 1) f₂, ?_⟩
    have hsp : mapTemplateSpan ops (max (f₁ + 1) f₂) (e, lit) p
        = some (Except.ok (spanRecordOf ops r lit)) := by
      have h1' : resolveToLiteral ops (max (f₁ + 1) f₂ - 1) e p
          = some (Except.ok r) :=
        resolveToLiteral_mono ops (by omega) hf₁
      have := mapTemplateSpan_eq ops lit h1'
      rwa [Nat.sub_add_cancel (by omega)] at this
    have hsps := mapTemplateSpans_mono ops
      (fun x r hx => mapTemplateSpan_mono ops (Nat.le_max_right (f₁ + 1) f₂) hx) _ _ hf₂
    simp [mapTemplateSpans, hsp, hsps]

theorem spanRecords_success {α : Type} (ops : JsOps α)
    {R : TsNode × String → ResolverResult α → Prop} :
    ∀ {spans : List (TsNode × String)} {results : List (ResolverResult α)}
      {ss : List String},
      List.Forall₂ R spans results →
      List.Forall₂ (fun r s => stringifySpanResult ops r = some s) results ss →
      (List.zipWith (fun sp r => spanRecordOf ops r sp.2) spans results).all
        (fun m => m.canBeResolved) = true ∧
      (List.zipWith (fun sp r => spanRecordOf ops r sp.2) spans results).map
        (fun m => m.stringLiteral)
        = List.zipWith (fun s sp => s ++ sp.2) ss spans := by
  intro spans results ss h1 h2
  induction h1 generalizing ss with
  | nil =>
    cases h2
    simp
  | @cons sp r sps rs h1 _ ih =>
    cases h2 with
    | cons hstr htail =>
      obtain ⟨hall, hmap⟩ := ih htail
      refine ⟨?_, ?_⟩
      · rw [List.zipWith_cons_cons, List.all_cons, hall]
        simp [spanRecordOf, hstr]
      · rw [List.zipWith_cons_cons, List.map_cons, hmap, List.zipWith_cons_cons]
        simp [spanRecordOf, hstr]

theorem spanRecords_failure {α : Type} (ops : JsOps α)
    {R : TsNode × String → ResolverResult α → Prop} :
    ∀ {spans : List (TsNode × String)} {results : List (ResolverResult α)}
      {r : ResolverResult α},
      List.Forall₂ R spans results →
      r ∈ results → stringifySpanResult ops r = none →
      (List.zipWith (fun sp r => spanRecordOf ops r sp.2) spans results).all
        (fun m => m.canBeResolved) = false := by
  intro spans results r h1 hmem hnone
  induction h1 with
  | nil => cases hmem
  | @cons sp r' sps rs h1 _ ih =>
    cases hmem with
    | head =>
      rw [List.zipWith_cons_cons, List.all_cons]
      simp [spanRecordOf, hnone]
    | tail _ hmem' =>
      rw [List.zipWith_cons_cons, List.all_cons, ih hmem']
      simp

/-- C2: the all-or-nothing template rule.  First part: when every span's
embedded expression resolves to a text, numeric, arbitrary-precision
integer or boolean result, the template resolves to the text-tagged
concatenation of the head segment with, for each span in order, the
span's stringified value followed by the span's trailing literal text.
Second part: when every span's expression resolution terminates but at
least one of them yields any other variant (including the unresolved
one), the whole template resolves to the unresolved result — no partially
substituted string. -/
theorem template_all_or_nothing {α : Type} (ops : JsOps α) (p : Program α)
    (head : String) :
    (∀ (spans : List (TsNode × String)) (results : List (ResolverResult α))
        (ss : List String),
      List.Forall₂ (fun sp r => Resolves ops sp.1 p r) spans results →
      List.Forall₂ (fun r s => stringifySpanResult ops r = some s) results ss →
      Resolves ops (.templateExpression head spans) p
        (.stringLiteral
          (head ++ String.join (List.zipWith (fun s sp => s ++ sp.2) ss spans)))) ∧
    (∀ (spans : List (TsNode × String)) (results : List (ResolverResult α)),
      List.Forall₂ (fun sp r => Resolves ops sp.1 p r) spans results →
      (∃ r ∈ results, stringifySpanResult ops r = none) →
      Resolves ops (.templateExpression head spans) p .unresolved) := by
  constructor
  · intro spans results ss h1 h2
    obtain ⟨f, hms⟩ := mapTemplateSpans_of_forall₂ ops h1
    obtain ⟨hall, hmap⟩ := spanRecords_success ops h1 h2
    refine ⟨f + 2, ?_⟩
    simp [resolveToLiteral, resolveTemplateExpressionToLiteral, hms, hall, hmap]
  · intro spans results h1 hex
    obtain ⟨r, hmem, hnone⟩ := hex
    obtain ⟨f, hms⟩ := mapTemplateSpans_of_forall₂ ops h1
    have hall := spanRecords_failure ops h1 hmem hnone
    refine ⟨f + 2, ?_⟩
    simp [resolveToLiteral, resolveTemplateExpressionToLiteral, hms, hall]

/-- Witness for C2, both directions: the spec's example template with
spans `1`, `2`, `3` produces the text `"1 + 2 = 3"`, and a template with
one span whose expression is unresolved is itself unresolved. -/
theorem template_all_or_nothing_witness :
    Resolves intOps
      (.templateExpression ""
        [(.numericLiteral "1", " + "), (.numericLiteral "2", " = "),
         (.numericLiteral "3", "")]) emptyProgram
      (.stringLiteral "1 + 2 = 3") ∧
    Resolves intOps (.templateExpression "head" [(.otherNode, "x")])
      emptyProgram .unresolved := by
  constructor
  · have h1 : List.Forall₂ (fun (sp : TsNode × String) r => Resolves intOps sp.1 emptyProgram r)
        [(.numericLiteral "1", " + "), (.numericLiteral "2", " = "), (.numericLiteral "3", "")]
        [ResolverResult.numericLiteral 1, ResolverResult.numericLiteral 2,
         ResolverResult.numericLiteral 3] := by
      refine List.Forall₂.cons ⟨1, by simp +decide [resolveToLiteral, intOps, decimalNat]⟩ ?_
      refine List.Forall₂.cons ⟨1, by simp +decide [resolveToLiteral, intOps, decimalNat]⟩ ?_
      exact List.Forall₂.cons ⟨1, by simp +decide [resolveToLiteral, intOps, decimalNat]⟩
        List.Forall₂.nil
    have h2 : List.Forall₂ (fun (r : ResolverResult Int) s => stringifySpanResult intOps r = some s)
        [ResolverResult.numericLiteral 1, ResolverResult.numericLiteral 2,
         ResolverResult.numericLiteral 3] ["1", "2", "3"] := by
      refine List.Forall₂.cons (by simp [stringifySpanResult, intOps]; rfl) ?_
      refine List.Forall₂.cons (by simp [stringifySpanResult, intOps]; rfl) ?_
      exact List.Forall₂.cons (by simp [stringifySpanResult, intOps]; rfl) List.Forall₂.nil
    have := (template_all_or_nothing intOps emptyProgram "").1 _ _ _ h1 h2
    simpa [String.join] using this
  · have h1 : List.Forall₂ (fun (sp : TsNode × String) r => Resolves intOps sp.1 emptyProgram r)
        [(.otherNode, "x")] [ResolverResult.unresolved] :=
      List.Forall₂.cons ⟨1, by simp [resolveToLiteral]⟩ List.Forall₂.nil
    exact (template_all_or_nothing intOps emptyProgram "head").2 _ _ h1
      ⟨.unresolved, by simp, by simp [stringifySpanResult]⟩

/-! ### C4 — object aggregation -/

/-- What a single object member contributes to the result mapping: a plain
property assignment contributes its dispatcher-resolved key (coerced to
text by JavaScript property assignment) paired with the raw `value` of its
resolved initializer; every other member kind (shorthand, spread,
accessors, methods, …) contributes nothing. -/
inductive PropContribution {α : Type} (ops : JsOps α) (p : Program α) :
    TsNode → Option (String × JsVal α) → Prop
  | assign (name init : TsNode) (kr vr : ResolverResult α) :
      Resolves ops name p kr → Resolves ops init p vr →
      PropContribution ops p (.propertyAssignment name init)
        (some (jsToString ops kr.value, vr.value))
  | skip (prop : TsNode) :
      (∀ name init, prop ≠ TsNode.propertyAssignment name init) →
      PropContribution ops p prop none

/-- Folding a list of member contributions into the accumulated object via
JavaScript property assignment. -/
def insertContributions {α : Type} :
    List (String × JsVal α) → List (Option (String × JsVal α)) →
    List (String × JsVal α)
  | acc, [] => acc
  | acc, none :: cs => insertContributions acc cs
  | acc, some kv :: cs => insertContributions (objInsert acc kv.1 kv.2) cs

/-- The value of the last contribution carrying key `k` — the
"later insertions override earlier ones" reading of the mapping. -/
def lastContribution {α : Type} (k : String) :
    List (Option (String × JsVal α)) → Option (JsVal α)
  | [] => none
  | none :: cs => lastContribution k cs
  | some kv :: cs =>
    match lastContribution k cs with
    | some v => some v
    | none => if kv.1 = k then some kv.2 else none

theorem objectStep_assign {α : Type} (ops : JsOps α) {f : Nat} {p : Program α}
    {name init : TsNode} {kr vr : ResolverResult α}
    (acc : List (String × JsVal α))
    (hk : resolveToLiteral ops f name p = some (Except.ok kr))
    (hv : resolveToLiteral ops f init p = some (Except.ok vr)) :
    objectStep ops (fun e => resolveToLiteral ops f e p) acc
      (.propertyAssignment name init)
      = some (Except.ok (objInsert acc (jsToString ops kr.value) vr.value)) := by
  simp [objectStep, hk, hv]

theorem objectStep_skip {α : Type} (ops : JsOps α)
    {resolve : TsNode → Option (Except JsError (ResolverResult α))}
    (acc : List (String × JsVal α)) {prop : TsNode}
    (h : ∀ name init, prop ≠ TsNode.propertyAssignment name init) :
    objectStep ops resolve acc prop = some (Except.ok acc) := by
  cases prop
  case propertyAssignment name init => exact absurd rfl (h name init)
  all_goals simp [objectStep]

theorem reduceProperties_of_contributions {α : Type} (ops : JsOps α)
    {p : Program α} :
    ∀ {props : List TsNode} {cs : List (Option (String × JsVal α))},
      List.Forall₂ (PropContribution ops p) props cs →
      ∀ acc, ∃ f, reduceProperties ops f props acc p
        = some (Except.ok (insertContributions acc cs)) := by
  intro props cs h
  induction h with
  | nil => intro acc; exact ⟨0, by simp [reduceProperties, insertContributions]⟩
  | @cons prop c props cs hpc _ ih =>
    intro acc
    cases hpc with
    | assign name init kr vr hk hv =>
      obtain ⟨f₁, hf₁⟩ := hk
      obtain ⟨f₂, hf₂⟩ := hv
      obtain ⟨f₃, hf₃⟩ := ih (objInsert acc (jsToString ops kr.value) vr.value)
      refine ⟨max (max f₁ f₂) f₃, ?_⟩
      have hk' := resolveToLiteral_mono ops
        (le_trans (Nat.le_max_left f₁ f₂) (Nat.le_max_left _ f₃)) hf₁
      have hv' := resolveToLiteral_mono ops
        (le_trans (Nat.le_max_right f₁ f₂) (Nat.le_max_left _ f₃)) hf₂
      have hstep := objectStep_assign ops acc hk' hv'
      have htail := reduceProperties_mono ops
        (fun n r hr => resolveToLiteral_mono ops
          (Nat.le_max_right (max f₁ f₂) f₃) hr) _ _ _ hf₃
      simp [reduceProperties, hstep, htail, insertContributions]
    | skip prop hne =>
      obtain ⟨f₃, hf₃⟩ := ih acc
      refine ⟨f₃, ?_⟩
      simp [reduceProperties, objectStep_skip ops acc hne, hf₃, insertContributions]

theorem objLookup_objInsert {α : Type} (k k' : String) (v' : JsVal α) :
    ∀ acc, objLookup (objInsert acc k' v') k
      = if k' = k then some v' else objLookup acc k := by
  intro acc
  induction acc with
  | nil => simp [objInsert, objLookup]
  | cons kv rest ih =>
    obtain ⟨k₀, v₀⟩ := kv
    by_cases h0 : k₀ = k'
    · subst h0
      by_cases hk : k₀ = k
      · subst hk
        simp [objInsert, objLookup]
      · simp [objInsert, objLookup, hk]
    · by_cases hk : k₀ = k
      · subst hk
        have hne : ¬ k' = k₀ := fun hc => h0 hc.symm
        simp [objInsert, objLookup, h0, hne]
      · simp [objInsert, objLookup, h0, hk, ih]

theorem objLookup_insertContributions {α : Type} :
    ∀ (cs : List (Option (String × JsVal α))) (acc : List (String × JsVal α))
      (k : String),
      objLookup (insertContributions acc cs) k
        = match lastContribution k cs with
          | some v => some v
          | none => objLookup acc k := by
  intro cs
  induction cs with
  | nil => intro acc k; simp [insertContributions, lastContribution]
  | cons c cs ih =>
    intro acc k
    cases c with
    | none => simp [insertContributions, lastContribution, ih]
    | some kv =>
      obtain ⟨k', v'⟩ := kv
      simp only [insertContributions, lastContribution]
      rw [ih]
      cases hlast : lastContribution k cs with
      | some v => simp
      | none =>
        simp only [objLookup_objInsert]
        by_cases hkk : k' = k <;> simp [hkk]

theorem resolveToLiteral_object_inv {α : Type} (ops : JsOps α) {f : Nat}
    {props : List TsNode} {p : Program α} {r : ResolverResult α}
    (h : resolveToLiteral ops f (.objectLiteralExpression props) p
      = some (Except.ok r)) :
    ∃ f' es, reduceProperties ops f' props [] p = some (Except.ok es) ∧
      r = .objectLiteralExpression es := by
  match f with
  | 0 => simp [resolveToLiteral] at h
  | f + 1 =>
    simp only [resolveToLiteral] at h
    cases he : reduceProperties ops f props [] p with
    | none => simp [he] at h
    | some ex =>
      cases ex with
      | error e => simp [he] at h
      | ok es =>
        simp only [he, Option.some.injEq, Except.ok.injEq] at h
        exact ⟨f, es, he, h.symm⟩

/-- C4: when every contributing member's key and initializer resolutions
terminate, the object literal resolves to the object discriminant whose
mapping is the fold of the members' contributions, in source order: only
plain property assignments contribute (shorthand, spread, accessor and
method members contribute nothing), each contribution stores the key's
dispatcher-resolved value coerced to text alongside the initializer's raw
`value` (an unresolved initializer is stored as undefined), looking up any
key in the mapping yields the value of the last contribution with that key
(later insertions override earlier ones), and any result the object node
can resolve to carries the object discriminant, never the unresolved
tag. -/
theorem object_resolution_shape {α : Type} (ops : JsOps α) (p : Program α)
    (props : List TsNode) (cs : List (Option (String × JsVal α)))
    (h : List.Forall₂ (PropContribution ops p) props cs) :
    Resolves ops (.objectLiteralExpression props) p
      (.objectLiteralExpression (insertContributions [] cs)) ∧
    (∀ k, objLookup (insertContributions [] cs) k = lastContribution k cs) ∧
    (∀ r', Resolves ops (.objectLiteralExpression props) p r' →
      ∃ es, r' = .objectLiteralExpression es) := by
  obtain ⟨f, hf⟩ := reduceProperties_of_contributions ops h []
  refine ⟨⟨f + 1, by simp [resolveToLiteral, hf]⟩, ?_, ?_⟩
  · intro k
    rw [objLookup_insertContributions]
    cases hlast : lastContribution k cs with
    | some v => simp
    | none => simp [objLookup]
  · intro r' hr'
    obtain ⟨f', hf'⟩ := hr'
    obtain ⟨f'', es, _, hshape⟩ := resolveToLiteral_object_inv ops hf'
    exact ⟨es, hshape⟩

/-- Witness for C4: `{hello: 123, x (shorthand), ...spread, hello: true}` —
the shorthand and spread members contribute nothing and the second
`hello` overrides the first in place. -/
theorem object_resolution_shape_witness :
    Resolves intOps
      (.objectLiteralExpression
        [.propertyAssignment (.stringLiteral "hello") (.numericLiteral "123"),
         .shorthandPropertyAssignment "x",
         .spreadAssignment .otherNode,
         .propertyAssignment (.stringLiteral "hello") .trueKeyword])
      emptyProgram
      (.objectLiteralExpression [("hello", .bool true)]) ∧
    objLookup [("hello", (JsVal.bool true : JsVal Int))] "hello"
      = some (JsVal.bool true) := by
  have h : List.Forall₂ (PropContribution intOps emptyProgram)
      [.propertyAssignment (.stringLiteral "hello") (.numericLiteral "123"),
       .shorthandPropertyAssignment "x",
       .spreadAssignment .otherNode,
       .propertyAssignment (.stringLiteral "hello") .trueKeyword]
      [some (jsToString intOps (ResolverResult.stringLiteral "hello").value,
          (ResolverResult.numericLiteral (123 : Int)).value),
       none, none,
       some (jsToString intOps (ResolverResult.stringLiteral "hello").value,
          (ResolverResult.trueKeyword : ResolverResult Int).value)] := by
    refine List.Forall₂.cons
      (PropContribution.assign _ _ _ _ ⟨1, by simp [resolveToLiteral]⟩
        ⟨1, by simp +decide [resolveToLiteral, intOps, decimalNat]⟩) ?_
    refine List.Forall₂.cons (PropContribution.skip _ (by intro a b hc; cases hc)) ?_
    refine List.Forall₂.cons (PropContribution.skip _ (by intro a b hc; cases hc)) ?_
    exact List.Forall₂.cons
      (PropContribution.assign _ _ _ _ ⟨1, by simp [resolveToLiteral]⟩
        ⟨1, by simp [resolveToLiteral]⟩) List.Forall₂.nil
  have hmain := (object_resolution_shape intOps emptyProgram _ _ h).1
  constructor
  · simpa [insertContributions, objInsert, jsToString, ResolverResult.value]
      using hmain
  · simp [objLookup]

/-! ### C8 — type-level recovery vs. syntactic resolution -/

theorem resolveTypeToLiteral_reference_inv {α : Type} (ops : JsOps α)
    {f : Nat} {sym : Option Symbol} {args : List (TsType α)} {p : Program α}
    {r : ResolverResult α}
    (h : resolveTypeToLiteral ops f (.objectType ObjectFlags.Reference sym args) p
      = some (Except.ok r)) :
    ∃ f' rs, resolveTypeArgumentsList ops f' args p = some (Except.ok rs) ∧
      r = .arrayLiteralExpression (rs.map ResolverResult.value) := by
  match f with
  | 0 => simp [resolveTypeToLiteral] at h
  | f + 1 =>
    simp only [resolveTypeToLiteral] at h
    match f with
    | 0 => cases sym <;> simp [resolveObjectTypeToLiteral] at h
    | f + 1 =>
      cases sym <;> simp only [resolveObjectTypeToLiteral, beq_self_eq_true,
        if_pos] at h <;>
      exact resolveTypeReferenceToLiteral_inv ops h

/-- Correspondence between a literal-bearing checker type and the syntactic
literal expression carrying the same information (the situation `as const`
narrowing produces): a literal-string type corresponds to the string
literal with that text, a literal-number type to the numeric literal whose
parse is that number, and a `Reference`-flagged object type to the array
literal whose elements correspond to its type arguments pointwise. -/
inductive LiteralTypeMatches {α : Type} (ops : JsOps α) :
    TsType α → TsNode → Prop
  | str (s : String) :
      LiteralTypeMatches ops (.stringLiteralType s) (.stringLiteral s)
  | num (text : String) :
      LiteralTypeMatches ops (.numberLiteralType (ops.parseFloat text))
        (.numericLiteral text)
  | tupleNil (sym : Option Symbol) :
      LiteralTypeMatches ops (.objectType ObjectFlags.Reference sym [])
        (.arrayLiteralExpression [])
  | tupleCons (sym : Option Symbol) (t : TsType α) (ts : List (TsType α))
      (e : TsNode) (es : List TsNode) :
      LiteralTypeMatches ops t e →
      LiteralTypeMatches ops (.objectType ObjectFlags.Reference sym ts)
        (.arrayLiteralExpression es) →
      LiteralTypeMatches ops (.objectType ObjectFlags.Reference sym (t :: ts))
        (.arrayLiteralExpression (e :: es))

/-- C8: whenever a checker type corresponds to a syntactic literal (the
`as const` situation: literal string/number narrowings, and literal-bearing
parameterized type argument lists read back as tuples), type-based
resolution and direct syntactic resolution of the equivalent literal
expression produce the same `ResolverResult` — in particular the same
array values, with the same discriminant. -/
theorem type_level_matches_syntactic {α : Type} (ops : JsOps α)
    (p : Program α) (t : TsType α) (e : TsNode)
    (h : LiteralTypeMatches ops t e) :
    ∃ r, TypeResolves ops t p r ∧ Resolves ops e p r := by
  induction h with
  | str s =>
    exact ⟨.stringLiteral s, ⟨1, by simp [resolveTypeToLiteral]⟩,
      ⟨1, by simp [resolveToLiteral]⟩⟩
  | num text =>
    exact ⟨.numericLiteral (ops.parseFloat text),
      ⟨1, by simp [resolveTypeToLiteral]⟩, ⟨1, by simp [resolveToLiteral]⟩⟩
  | tupleNil sym =>
    refine ⟨.arrayLiteralExpression [], ⟨3, ?_⟩, ⟨1, ?_⟩⟩
    · cases sym <;>
        simp [resolveTypeToLiteral, resolveObjectTypeToLiteral,
          resolveTypeReferenceToLiteral, resolveTypeArgumentsList]
    · simp [resolveToLiteral, resolveElements]
  | tupleCons sym t ts e es h1 h2 ih1 ih2 =>
    obtain ⟨r₁, ⟨ft₁, hft₁⟩, ⟨fe₁, hfe₁⟩⟩ := ih1
    obtain ⟨r₂, ⟨ft₂, hft₂⟩, ⟨fe₂, hfe₂⟩⟩ := ih2
    obtain ⟨ftr, rs, hrs, hshape⟩ := resolveTypeToLiteral_reference_inv ops hft₂
    obtain ⟨fer, rs', hrs', hshape'⟩ := resolveToLiteral_array_inv ops hfe₂
    have hmapeq : rs.map ResolverResult.value = rs'.map ResolverResult.value := by
      rw [hshape] at hshape'
      exact (ResolverResult.arrayLiteralExpression.injEq _ _).mp hshape'
    refine ⟨.arrayLiteralExpression (r₁.value :: rs.map ResolverResult.value),
      ⟨max ft₁ ftr + 3, ?_⟩, ⟨max fe₁ fer + 1, ?_⟩⟩
    · have ht := resolveTypeToLiteral_mono ops (Nat.le_max_left ft₁ ftr) hft₁
      have hts := resolveTypeArgumentsList_mono ops
        (fun x r hx => resolveTypeToLiteral_mono ops (Nat.le_max_right ft₁ ftr) hx)
        _ _ hrs
      cases sym <;>
        simp [resolveTypeToLiteral, resolveObjectTypeToLiteral,
          resolveTypeReferenceToLiteral, resolveTypeArgumentsList, ht, hts]
    · have he := resolveToLiteral_mono ops (Nat.le_max_left fe₁ fer) hfe₁
      have hes := resolveElements_mono ops
        (fun x r hx => resolveToLiteral_mono ops (Nat.le_max_right fe₁ fer) hx)
        _ _ hrs'
      simp [resolveToLiteral, resolveElements, he, hes, hmapeq]

/-- Witness for C8: the tuple type of `['hello', 123] as const` against the
array literal `['hello', 123]`: both resolutions produce one and the same
result. -/
theorem type_level_matches_syntactic_witness :
    ∃ r, TypeResolves intOps
        (.objectType ObjectFlags.Reference none
          [.stringLiteralType "hello", .numberLiteralType (intOps.parseFloat "123")])
        emptyProgram r ∧
      Resolves intOps
        (.arrayLiteralExpression [.stringLiteral "hello", .numericLiteral "123"])
        emptyProgram r :=
  type_level_matches_syntactic intOps emptyProgram _ _
    (LiteralTypeMatches.tupleCons none _ _ _ _ (LiteralTypeMatches.str "hello")
      (LiteralTypeMatches.tupleCons none _ _ _ _ (LiteralTypeMatches.num "123")
        (LiteralTypeMatches.tupleNil none)))

/-! ### C1 — totality: counterexample and amended statement

The claim as written quantifies over every syntax node and semantic model.
It fails: resolution re-enters itself through `symbol.valueDeclaration`,
so the (parseable, bindable, merely use-before-declaration-invalid)
program `const a = a;` sends the JavaScript recursion into an infinite
loop — a stack overflow, not a returned `ResolverResult`.  The amended
statement keeps everything else: whenever the recursion terminates the
result is exactly one `ResolverResult` (unhandled kinds yielding the
unresolved tag), and under any model that binds no symbols — resolution
that never enters the symbol/type chain — it always terminates. -/

end TsResolver
